import Mathlib

/-!
Verification of the phase-correlation operator
(`itkPhaseCorrelationOperator.hxx`): a shallow embedding of its band-pass
configuration, output-geometry derivation and per-sample kernel, together
with theorems about them.  Machine floating point is modelled by exact
arithmetic: `ℚ` for the stored configuration and geometry, `ℝ` (with
`Real.sqrt`) for the kernel's radius, magnitude and normalization.
-/

/-- The operator's four band-pass control points, `m_BandPassControlPoints`
(an `itk::FixedArray<double, 4>` in the source), modelled with exact
rationals. -/
structure BandPassPoints where
  p0 : ℚ
  p1 : ℚ
  p2 : ℚ
  p3 : ℚ
deriving DecidableEq

/-- The mutable state of one `PhaseCorrelationOperator`: the stored control
points and whether `Modified()` has been called (the pipeline dirty flag). -/
structure OperatorState where
  points : BandPassPoints
  modified : Bool
deriving DecidableEq

/-- The control points the constructor installs: `0.05, 0.1, 0.5, 0.9`
(source lines 44-47). -/
def initialBandPassPoints : BandPassPoints :=
  { p0 := 1 / 20, p1 := 1 / 10, p2 := 1 / 2, p3 := 9 / 10 }

/-- The five `itkExceptionMacro` conditions of `SetBandPassControlPoints`,
in source order (lines 85-104). -/
inductive ConfigError where
  | c0Negative
  | c3TooLarge
  | c0NotLtC1
  | c1NotLtC2
  | c2NotLtC3
deriving DecidableEq

/-- A tuple the validation accepts: within `[0, 1]` and strictly
increasing. -/
def validTuple (p : BandPassPoints) : Prop :=
  0 ≤ p.p0 ∧ p.p0 < p.p1 ∧ p.p1 < p.p2 ∧ p.p2 < p.p3 ∧ p.p3 ≤ 1

instance (p : BandPassPoints) : Decidable (validTuple p) :=
  inferInstanceAs
    (Decidable (0 ≤ p.p0 ∧ p.p0 < p.p1 ∧ p.p1 < p.p2 ∧ p.p2 < p.p3 ∧ p.p3 ≤ 1))

/-- `SetBandPassControlPoints` (source lines 78-108): when the argument
differs from the stored tuple, validate it check by check — an exception
leaves the state untouched, which the pair result records as
`(old state, some error)` — and only after every check passes assign the
tuple and call `Modified()`.  An argument equal to the stored tuple does
nothing at all. -/
def setBandPassControlPoints (st : OperatorState) (points : BandPassPoints) :
    OperatorState × Option ConfigError :=
  if points ≠ st.points then
    if points.p0 < 0 then (st, some ConfigError.c0Negative)
    else if 1 < points.p3 then (st, some ConfigError.c3TooLarge)
    else if points.p1 ≤ points.p0 then (st, some ConfigError.c0NotLtC1)
    else if points.p2 ≤ points.p1 then (st, some ConfigError.c1NotLtC2)
    else if points.p3 ≤ points.p2 then (st, some ConfigError.c2NotLtC3)
    else ({ points := points, modified := true }, none)
  else (st, none)

/-- The geometric metadata of one spectrum image: extent, physical spacing
and start index per axis (`GetLargestPossibleRegion` plus `GetSpacing`). -/
structure SpectrumInfo (n : ℕ) where
  size : Fin n → ℕ
  spacing : Fin n → ℚ
  startIndex : Fin n → ℤ

/-- The output-geometry derivation of `GenerateOutputInformation` (source
lines 277-284): per axis the spacing is the ternary
`fixed >= moving ? fixed : moving`, the size the ternary
`fixed <= moving ? fixed : moving`, and the start index the fixed input's.
The virtual `AdjustOutputInformation` hook called afterwards is declared
outside this file's sources with an empty default body and is modelled as
the identity, as the spec describes no adjustment. -/
def generateOutputInformation {n : ℕ} (fixed moving : SpectrumInfo n) :
    SpectrumInfo n where
  size := fun i => if fixed.size i ≤ moving.size i then fixed.size i else moving.size i
  spacing := fun i =>
    if moving.spacing i ≤ fixed.spacing i then fixed.spacing i else moving.spacing i
  startIndex := fun i => fixed.startIndex i

/-- The spec's worked example: fixed input of size `(64, 64)`, spacing
`(1, 1)`, with a nonzero start index. -/
def exampleFixedInfo : SpectrumInfo 2 :=
  { size := ![64, 64], spacing := ![1, 1], startIndex := ![3, -2] }

/-- The spec's worked example: moving input of size `(32, 64)`, spacing
`(2, 1)`. -/
def exampleMovingInfo : SpectrumInfo 2 :=
  { size := ![32, 64], spacing := ![2, 1], startIndex := ![0, 5] }

/-- Wrap folding of one offset on a periodic axis `d > 0` (source lines
153-157): `dInd = ind[d] - ind0[d]` and, when
`dInd >= IndexValueType(size[d] / 2)` (unsigned integer division), `dInd`
becomes `size[d] - (ind[d] - ind0[d])`. -/
def foldOffset (s : ℕ) (raw : ℤ) : ℤ :=
  if ((s / 2 : ℕ) : ℤ) ≤ raw then (s : ℤ) - raw else raw

/-- The squared radial distance the kernel accumulates (source lines
150-159): axis 0 contributes its raw offset squared (no wrap, the
half-spectrum axis), every higher axis its wrap-folded offset squared. -/
def distSq {n : ℕ} (size : Fin (n + 1) → ℕ) (raw : Fin (n + 1) → ℤ) : ℤ :=
  raw 0 * raw 0 +
    ∑ d : Fin n, foldOffset (size d.succ) (raw d.succ) * foldOffset (size d.succ) (raw d.succ)

/-- The per-pixel radius `distFrom0 = std::sqrt(...)` (source line 160). -/
noncomputable def distFrom0 {n : ℕ} (size : Fin (n + 1) → ℕ)
    (raw : Fin (n + 1) → ℤ) : ℝ :=
  Real.sqrt ((distSq size raw : ℤ) : ℝ)

/-- The squared reference radius (source lines 129-133): `size[0]^2` for the
halved axis 0 plus `size[d]^2 / 4.0` for every other axis. -/
def maxDistSq {n : ℕ} (size : Fin (n + 1) → ℕ) : ℚ :=
  (size 0 : ℚ) * (size 0 : ℚ) + ∑ d : Fin n, (size d.succ : ℚ) * (size d.succ : ℚ) / 4

/-- `maxDist = std::sqrt(...)` (source line 134), the radius the stored
control points are scaled by. -/
noncomputable def maxDist {n : ℕ} (size : Fin (n + 1) → ℕ) : ℝ :=
  Real.sqrt ((maxDistSq size : ℚ) : ℝ)

/-- The radial band-pass attenuation (source lines 169-189), over any
linearly ordered field so that one definition serves both the
exact-rational statements and the real-valued kernel.  The ramps multiply
by the precomputed reciprocals `oneOverC1minusC0` and `oneOverC3minusC2`
(source lines 139-140). -/
def bandPassFactor {α : Type} [LinearOrderedField α] (c0 c1 c2 c3 r : α) : α :=
  if r < c0 then 0
  else if c0 ≤ r ∧ r < c1 then (r - c0) * (1 / (c1 - c0))
  else if c1 ≤ r ∧ r ≤ c2 then 1
  else if c2 < r ∧ r ≤ c3 then (c3 - r) * (1 / (c3 - c2))
  else 0

/-- The real part of the cross-power term, `Fr*Mr + Fi*Mi` (source lines
163-164). -/
def crossRe (f m : ℝ × ℝ) : ℝ := f.1 * m.1 + f.2 * m.2

/-- The imaginary part of the cross-power term, `Fi*Mr - Fr*Mi` (source
lines 165-166). -/
def crossIm (f m : ℝ × ℝ) : ℝ := f.2 * m.1 - f.1 * m.2

/-- The cross-power magnitude `magn = sqrt(real*real + imag*imag)` (source
line 167). -/
noncomputable def crossMagn (f m : ℝ × ℝ) : ℝ :=
  Real.sqrt (crossRe f m * crossRe f m + crossIm f m * crossIm f m)

/-- The complex value the kernel writes for one pair of samples once the
band-pass factor is known (source lines 191-198): the magnitude-normalized
cross power scaled by the factor, or exactly `(0, 0)` when the magnitude is
zero. -/
noncomputable def crossPowerSample (f m : ℝ × ℝ) (factor : ℝ) : ℝ × ℝ :=
  if crossMagn f m ≠ 0 then
    (factor * crossRe f m / crossMagn f m, factor * crossIm f m / crossMagn f m)
  else (0, 0)

/-- The modulus of a complex value stored as a real pair. -/
noncomputable def complexAbs (z : ℝ × ℝ) : ℝ := Real.sqrt (z.1 * z.1 + z.2 * z.2)

/-- The whole per-coordinate kernel of `DynamicThreadedGenerateData`
(source lines 128-198): fold the coordinate's offsets into a radius, scale
the stored control points by `maxDist`, attenuate, and combine the two
co-located samples. -/
noncomputable def kernelAt {n : ℕ} (points : BandPassPoints)
    (size : Fin (n + 1) → ℕ) (start : Fin (n + 1) → ℤ)
    (fixedData movingData : (Fin (n + 1) → ℤ) → ℝ × ℝ)
    (idx : Fin (n + 1) → ℤ) : ℝ × ℝ :=
  crossPowerSample (fixedData idx) (movingData idx)
    (bandPassFactor ((points.p0 : ℝ) * maxDist size) ((points.p1 : ℝ) * maxDist size)
      ((points.p2 : ℝ) * maxDist size) ((points.p3 : ℝ) * maxDist size)
      (distFrom0 size (fun d => idx d - start d)))

/-- One thread's pass over its sub-region: write `f i` into the output
buffer at every coordinate of the region, in order. -/
def writeRegion {ι α : Type} [DecidableEq ι] (f : ι → α) (coords : List ι)
    (buf : ι → Option α) : ι → Option α :=
  coords.foldl (fun b i => Function.update b i (some (f i))) buf

/-- Evaluation of a list of sub-regions one after the other, each thread
writing its own region into the shared output buffer. -/
def evalParts {ι α : Type} [DecidableEq ι] (f : ι → α) (parts : List (List ι))
    (buf : ι → Option α) : ι → Option α :=
  parts.foldl (fun b region => writeRegion f region b) buf

/-- The output buffer produced by evaluating the kernel over a partition of
the output region into sub-regions, starting from an unwritten buffer. -/
noncomputable def runPartition {n : ℕ} (points : BandPassPoints)
    (size : Fin (n + 1) → ℕ) (start : Fin (n + 1) → ℤ)
    (fixedData movingData : (Fin (n + 1) → ℤ) → ℝ × ℝ)
    (parts : List (List (Fin (n + 1) → ℤ))) : (Fin (n + 1) → ℤ) → Option (ℝ × ℝ) :=
  evalParts (kernelAt points size start fixedData movingData) parts (fun _ => none)

/-- The evaluation-time failure of the spec's error taxonomy that this file
models: an input spectrum missing when evaluation starts. -/
inductive PipelineError where
  | missingInput
deriving DecidableEq

/-- A spectrum image: its geometry and its complex samples. -/
structure SpectrumImage (n : ℕ) where
  info : SpectrumInfo n
  data : (Fin n → ℤ) → ℝ × ℝ

/-- Modelled from the spec: the pipeline's evaluation entry point.  The
enforcement that both inputs are present before any region is evaluated is
not in this file's sources — the constructor only declares
`SetNumberOfRequiredInputs(2)` (source line 43) and the external pipeline
framework performs the check before dispatching any region — so, following
the spec ("missing inputs at evaluation time; fatal precondition failure,
no partial output produced"), a missing input yields an error carrying no
output values at all, and only with both inputs present is the kernel
evaluated over the derived output geometry. -/
noncomputable def updateOperator {n : ℕ} (points : BandPassPoints)
    (fixed moving : Option (SpectrumImage (n + 1))) :
    Except PipelineError ((Fin (n + 1) → ℤ) → ℝ × ℝ) :=
  match fixed, moving with
  | some f, some m =>
    Except.ok (fun idx =>
      kernelAt points (generateOutputInformation f.info m.info).size
        (generateOutputInformation f.info m.info).startIndex f.data m.data idx)
  | _, _ => Except.error PipelineError.missingInput

/-- CLAIM C6.  `SetBandPassControlPoints` fails exactly when `c0 < 0`, or
`c3 > 1`, or the tuple is not strictly increasing, and on every failure the
previously stored configuration is left completely unchanged.  The stored
tuple is assumed valid, which every reachable state satisfies (the
constructor's tuple is valid and every successful call stores a validated
tuple). -/
theorem setBandPassControlPoints_invalid_rejected
    (st : OperatorState) (p : BandPassPoints) (hst : validTuple st.points) :
    ((setBandPassControlPoints st p).2.isSome ↔
      (p.p0 < 0 ∨ 1 < p.p3 ∨ ¬(p.p0 < p.p1 ∧ p.p1 < p.p2 ∧ p.p2 < p.p3))) ∧
    ((setBandPassControlPoints st p).2.isSome →
      (setBandPassControlPoints st p).1 = st) := by
  rcases hst with ⟨h0, h01, h12, h23, h3⟩
  unfold setBandPassControlPoints
  by_cases heq : p = st.points
  · rw [if_neg (fun h => h heq)]
    have hnot : ¬(p.p0 < 0 ∨ 1 < p.p3 ∨ ¬(p.p0 < p.p1 ∧ p.p1 < p.p2 ∧ p.p2 < p.p3)) := by
      subst heq
      rintro (ha | hb | hc)
      · exact absurd h0 (not_le.mpr ha)
      · exact absurd h3 (not_le.mpr hb)
      · exact hc ⟨h01, h12, h23⟩
    exact ⟨iff_of_false Bool.false_ne_true hnot, fun h => absurd h Bool.false_ne_true⟩
  · rw [if_pos heq]
    split_ifs with h1 h2 h3' h4 h5
    · exact ⟨iff_of_true rfl (Or.inl h1), fun _ => rfl⟩
    · exact ⟨iff_of_true rfl (Or.inr (Or.inl h2)), fun _ => rfl⟩
    · exact ⟨iff_of_true rfl (Or.inr (Or.inr fun hc => absurd hc.1 (not_lt.mpr h3'))),
        fun _ => rfl⟩
    · exact ⟨iff_of_true rfl (Or.inr (Or.inr fun hc => absurd hc.2.1 (not_lt.mpr h4))),
        fun _ => rfl⟩
    · exact ⟨iff_of_true rfl (Or.inr (Or.inr fun hc => absurd hc.2.2 (not_lt.mpr h5))),
        fun _ => rfl⟩
    · have hnot : ¬(p.p0 < 0 ∨ 1 < p.p3 ∨ ¬(p.p0 < p.p1 ∧ p.p1 < p.p2 ∧ p.p2 < p.p3)) := by
        rintro (ha | hb | hc)
        · exact h1 ha
        · exact h2 hb
        · exact hc ⟨lt_of_not_le h3', lt_of_not_le h4, lt_of_not_le h5⟩
      exact ⟨iff_of_false Bool.false_ne_true hnot, fun h => absurd h Bool.false_ne_true⟩

/-- Witness for C6: rejecting the tuple `(0, 0, 0, 0)` from the
constructor's state. -/
theorem setBandPassControlPoints_invalid_rejected_witness :
    ((setBandPassControlPoints ⟨initialBandPassPoints, false⟩ ⟨0, 0, 0, 0⟩).2.isSome ↔
      ((0 : ℚ) < 0 ∨ (1 : ℚ) < 0 ∨ ¬((0 : ℚ) < 0 ∧ (0 : ℚ) < 0 ∧ (0 : ℚ) < 0))) ∧
    ((setBandPassControlPoints ⟨initialBandPassPoints, false⟩ ⟨0, 0, 0, 0⟩).2.isSome →
      (setBandPassControlPoints ⟨initialBandPassPoints, false⟩ ⟨0, 0, 0, 0⟩).1 =
        ⟨initialBandPassPoints, false⟩) :=
  setBandPassControlPoints_invalid_rejected ⟨initialBandPassPoints, false⟩ ⟨0, 0, 0, 0⟩
    (by norm_num [validTuple, initialBandPassPoints])

/-- CLAIM C7 (amended).  For every valid tuple `0 ≤ c0 < c1 < c2 < c3 ≤ 1`
the call succeeds and afterwards the stored tuple equals the argument
exactly; when the argument differs from the stored tuple the new state is
exactly the argument with the dirty flag set.  A successful call whose
argument equals the stored tuple is a no-op and does not mark the component
dirty (the source only validates, stores and calls `Modified()` inside
`if (m_BandPassControlPoints != points)`). -/
theorem setBandPassControlPoints_valid_stores
    (st : OperatorState) (p : BandPassPoints) (hp : validTuple p) :
    (setBandPassControlPoints st p).2 = none ∧
    (setBandPassControlPoints st p).1.points = p ∧
    (p ≠ st.points → (setBandPassControlPoints st p).1 = ⟨p, true⟩) := by
  rcases hp with ⟨h0, h01, h12, h23, h3⟩
  unfold setBandPassControlPoints
  by_cases heq : p = st.points
  · rw [if_neg (fun h => h heq)]
    exact ⟨rfl, heq.symm, fun hne => absurd heq hne⟩
  · rw [if_pos heq]
    split_ifs with h1 h2 h3' h4 h5
    · exact absurd h1 (not_lt.mpr h0)
    · exact absurd h2 (not_lt.mpr h3)
    · exact absurd h3' (not_le.mpr h01)
    · exact absurd h4 (not_le.mpr h12)
    · exact absurd h5 (not_le.mpr h23)
    · exact ⟨rfl, rfl, fun _ => rfl⟩

/-- Counterexample for C7 as stated: calling with the tuple already stored
succeeds (no error) yet does not mark the component dirty, because the
whole body is guarded by `m_BandPassControlPoints != points`. -/
theorem setBandPassControlPoints_valid_stores_cex :
    (setBandPassControlPoints ⟨initialBandPassPoints, false⟩ initialBandPassPoints).2 = none ∧
    (setBandPassControlPoints ⟨initialBandPassPoints, false⟩
      initialBandPassPoints).1.modified = false := by
  unfold setBandPassControlPoints
  rw [if_neg (fun h => h rfl)]
  exact ⟨rfl, rfl⟩

/-- Witness for C7: storing the valid tuple `(1/10, 2/10, 3/10, 1)` over the
constructor's state. -/
theorem setBandPassControlPoints_valid_stores_witness :
    (setBandPassControlPoints ⟨initialBandPassPoints, false⟩ ⟨1/10, 2/10, 3/10, 1⟩).2 = none ∧
    (setBandPassControlPoints ⟨initialBandPassPoints, false⟩
      ⟨1/10, 2/10, 3/10, 1⟩).1.points = ⟨1/10, 2/10, 3/10, 1⟩ ∧
    ((⟨1/10, 2/10, 3/10, 1⟩ : BandPassPoints) ≠ initialBandPassPoints →
      (setBandPassControlPoints ⟨initialBandPassPoints, false⟩ ⟨1/10, 2/10, 3/10, 1⟩).1 =
        ⟨⟨1/10, 2/10, 3/10, 1⟩, true⟩) :=
  setBandPassControlPoints_valid_stores ⟨initialBandPassPoints, false⟩
    ⟨1/10, 2/10, 3/10, 1⟩ (by norm_num [validTuple])

/-- CLAIM C5.  On every axis the derived output geometry takes the maximum
spacing, the minimum size and the fixed input's start index; in particular
fixed size `(64, 64)` / spacing `(1, 1)` with moving size `(32, 64)` /
spacing `(2, 1)` yields size `(32, 64)`, spacing `(2, 1)` and the fixed
input's start index. -/
theorem generateOutputInformation_minmax :
    (∀ (n : ℕ) (fixed moving : SpectrumInfo n) (i : Fin n),
      (generateOutputInformation fixed moving).spacing i =
          max (fixed.spacing i) (moving.spacing i) ∧
      (generateOutputInformation fixed moving).size i =
          min (fixed.size i) (moving.size i) ∧
      (generateOutputInformation fixed moving).startIndex i = fixed.startIndex i) ∧
    ((generateOutputInformation exampleFixedInfo exampleMovingInfo).size = ![32, 64] ∧
      (generateOutputInformation exampleFixedInfo exampleMovingInfo).spacing = ![2, 1] ∧
      (generateOutputInformation exampleFixedInfo exampleMovingInfo).startIndex =
        exampleFixedInfo.startIndex) := by
  constructor
  · intro n fixed moving i
    refine ⟨?_, ?_, rfl⟩
    · show (if moving.spacing i ≤ fixed.spacing i then fixed.spacing i
          else moving.spacing i) = _
      by_cases h : moving.spacing i ≤ fixed.spacing i
      · rw [if_pos h, max_eq_left h]
      · rw [if_neg h, max_eq_right (le_of_not_le h)]
    · show (if fixed.size i ≤ moving.size i then fixed.size i
          else moving.size i) = _
      by_cases h : fixed.size i ≤ moving.size i
      · rw [if_pos h, min_eq_left h]
      · rw [if_neg h, min_eq_right (le_of_not_le h)]
  · refine ⟨?_, ?_, rfl⟩
    · funext i
      fin_cases i <;> rfl
    · funext i
      fin_cases i <;> rfl

/-- Folding is symmetric under `raw ↦ size - raw` whenever the axis size is
even; on an odd axis it is symmetric except at the two offsets adjacent to
the midpoint. -/
theorem foldOffset_symm (s : ℕ) (a : ℤ)
    (h : s % 2 = 0 ∨
      (a ≠ ((s / 2 : ℕ) : ℤ) ∧ (s : ℤ) - a ≠ ((s / 2 : ℕ) : ℤ))) :
    foldOffset s a = foldOffset s ((s : ℤ) - a) := by
  unfold foldOffset
  rcases h with h | ⟨h1, h2⟩ <;> split_ifs <;> omega

/-- CLAIM C1 (amended).  For a wrapped axis `k > 0` and in-region offsets
`raw` and `size[k] - raw`, the per-sample radius computed by the kernel is
identical for the two coordinates provided the axis size is even, or the
offset is not one of the two integers adjacent to the odd midpoint
(`size[k]/2` and `size[k] - size[k]/2`); for an odd axis size the folding
is asymmetric at the midpoint pair. -/
theorem distFrom0_wrap_symm {n : ℕ} (size : Fin (n + 1) → ℕ)
    (raw : Fin (n + 1) → ℤ) (k : Fin n)
    (hin : 0 < raw k.succ ∧ raw k.succ < (size k.succ : ℤ))
    (hside : size k.succ % 2 = 0 ∨
      (raw k.succ ≠ ((size k.succ / 2 : ℕ) : ℤ) ∧
        (size k.succ : ℤ) - raw k.succ ≠ ((size k.succ / 2 : ℕ) : ℤ))) :
    distFrom0 size raw =
      distFrom0 size
        (Function.update raw k.succ ((size k.succ : ℤ) - raw k.succ)) := by
  have key : distSq size
      (Function.update raw k.succ ((size k.succ : ℤ) - raw k.succ)) =
      distSq size raw := by
    unfold distSq
    rw [Function.update_noteq (Fin.succ_ne_zero k).symm]
    congr 1
    apply Finset.sum_congr rfl
    intro d _
    rcases eq_or_ne d k with hd | hd
    · subst hd
      rw [Function.update_same,
        ← foldOffset_symm (size d.succ) (raw d.succ) hside]
    · rw [Function.update_noteq (fun h => hd (Fin.succ_injective n h))]
  unfold distFrom0
  rw [key]

/-- Witness for C1: on axes of size 4, the offsets `1` and `3` on the
wrapped axis produce the same radius. -/
theorem distFrom0_wrap_symm_witness :
    distFrom0 ![4, 4] ![1, 1] =
      distFrom0 ![4, 4]
        (Function.update ![1, 1] (0 : Fin 1).succ
          (((![4, 4] (0 : Fin 1).succ : ℕ) : ℤ) - ![1, 1] (0 : Fin 1).succ)) :=
  distFrom0_wrap_symm ![4, 4] ![1, 1] 0 (by decide) (Or.inl (by decide))

/-- Counterexample for C1 as stated: on a wrapped axis of odd size 5, the
in-region offsets `2` and `5 - 2 = 3` fold to distances `3` and `2`, so the
radii differ. -/
theorem distFrom0_wrap_symm_cex :
    (0 : ℤ) < 2 ∧ (2 : ℤ) < 5 ∧
    distFrom0 ![4, 5] ![0, 2] ≠ distFrom0 ![4, 5] ![0, 3] := by
  refine ⟨by norm_num, by norm_num, ?_⟩
  have h1 : distSq ![4, 5] ![0, 2] = 9 := by decide
  have h2 : distSq ![4, 5] ![0, 3] = 4 := by decide
  unfold distFrom0
  rw [h1, h2, show ((9 : ℤ) : ℝ) = (3 : ℝ) ^ 2 by norm_num,
    show ((4 : ℤ) : ℝ) = (2 : ℝ) ^ 2 by norm_num,
    Real.sqrt_sq (by norm_num : (0:ℝ) ≤ 3),
    Real.sqrt_sq (by norm_num : (0:ℝ) ≤ 2)]
  norm_num

/-- On an even axis the folded offset of an in-region coordinate is
nonnegative and at most half the size. -/
theorem foldOffset_sq_le (s : ℕ) (a : ℤ) (hs : s % 2 = 0)
    (h0 : 0 ≤ a) (h1 : a < (s : ℤ)) :
    ((foldOffset s a : ℤ) : ℚ) * ((foldOffset s a : ℤ) : ℚ) ≤ (s : ℚ) * (s : ℚ) / 4 := by
  have hb : 0 ≤ foldOffset s a ∧ 2 * foldOffset s a ≤ (s : ℤ) := by
    unfold foldOffset
    split_ifs <;> omega
  have h4 : (foldOffset s a : ℤ) * foldOffset s a * 4 ≤ (s : ℤ) * s := by
    nlinarith [hb.1, hb.2]
  rw [le_div_iff₀ (by norm_num : (0 : ℚ) < 4)]
  exact_mod_cast h4

/-- CLAIM C2 (amended).  For every coordinate of the output region, the
per-sample radius lies in `[0, maxDist]` provided every wrapped axis
(`k > 0`) has even size; an odd wrapped axis folds its midpoint offset to
`(size+1)/2 > size/2`, which can push the radius past `maxDist`. -/
theorem distFrom0_le_maxDist {n : ℕ} (size : Fin (n + 1) → ℕ)
    (raw : Fin (n + 1) → ℤ)
    (hin : ∀ d, 0 ≤ raw d ∧ raw d < (size d : ℤ))
    (heven : ∀ d : Fin n, size d.succ % 2 = 0) :
    0 ≤ distFrom0 size raw ∧ distFrom0 size raw ≤ maxDist size := by
  refine ⟨Real.sqrt_nonneg _, ?_⟩
  have key : ((distSq size raw : ℤ) : ℚ) ≤ maxDistSq size := by
    unfold distSq maxDistSq
    push_cast
    apply add_le_add
    · have ha := (hin 0).1
      have hb := le_of_lt (hin 0).2
      have haq : (0 : ℚ) ≤ (raw 0 : ℚ) := by exact_mod_cast ha
      have hbq : ((raw 0 : ℤ) : ℚ) ≤ ((size 0 : ℕ) : ℚ) := by exact_mod_cast hb
      exact mul_le_mul hbq hbq haq (le_trans haq hbq)
    · apply Finset.sum_le_sum
      intro d _
      exact foldOffset_sq_le (size d.succ) (raw d.succ) (heven d)
        (hin d.succ).1 (hin d.succ).2
  unfold distFrom0 maxDist
  apply Real.sqrt_le_sqrt
  exact_mod_cast key

/-- Witness for C2: even sizes `(4, 4)` with in-region offsets `(1, 3)`. -/
theorem distFrom0_le_maxDist_witness :
    0 ≤ distFrom0 ![4, 4] ![1, 3] ∧ distFrom0 ![4, 4] ![1, 3] ≤ maxDist ![4, 4] :=
  distFrom0_le_maxDist ![4, 4] ![1, 3] (by decide) (by decide)

/-- Counterexample for C2 as stated: with sizes `(1, 5)` the in-region
coordinate of offsets `(0, 2)` folds to distance 3 on the odd wrapped axis,
and `3 > maxDist = sqrt(1 + 25/4)`. -/
theorem distFrom0_le_maxDist_cex :
    (∀ d : Fin 2, 0 ≤ (![0, 2] : Fin 2 → ℤ) d ∧
      (![0, 2] : Fin 2 → ℤ) d < (((![1, 5] : Fin 2 → ℕ) d : ℕ) : ℤ)) ∧
    ¬ distFrom0 ![1, 5] ![0, 2] ≤ maxDist ![1, 5] := by
  refine ⟨by decide, ?_⟩
  have h1 : distSq ![1, 5] ![0, 2] = 9 := by decide
  have h2 : maxDistSq ![1, 5] = 29 / 4 := by
    unfold maxDistSq
    rw [Fin.sum_univ_one]
    norm_num
  have hd : distFrom0 ![1, 5] ![0, 2] = 3 := by
    unfold distFrom0
    rw [h1, show ((9 : ℤ) : ℝ) = (3 : ℝ) ^ 2 by norm_num]
    exact Real.sqrt_sq (by norm_num)
  have hm : maxDist ![1, 5] < 3 := by
    unfold maxDist
    rw [h2, show ((29 / 4 : ℚ) : ℝ) = 29 / 4 by norm_num]
    calc Real.sqrt (29 / 4) < Real.sqrt 9 :=
          Real.sqrt_lt_sqrt (by norm_num) (by norm_num)
      _ = 3 := by
          rw [show (9 : ℝ) = (3 : ℝ) ^ 2 by norm_num]
          exact Real.sqrt_sq (by norm_num)
  rw [hd, not_le]
  exact hm

/-- CLAIM C3.  With pre-scaled control points `c0 < c1 < c2 < c3`, the
band-pass factor follows the five-piece trapezoid with half-open ramps and
a closed pass-band, and takes the exact values 0, 1, 1, 0 at the four
control points. -/
theorem bandPassFactor_piecewise (c0 c1 c2 c3 r : ℚ)
    (h01 : c0 < c1) (h12 : c1 < c2) (h23 : c2 < c3) :
    (r < c0 → bandPassFactor c0 c1 c2 c3 r = 0) ∧
    (c0 ≤ r → r < c1 → bandPassFactor c0 c1 c2 c3 r = (r - c0) / (c1 - c0)) ∧
    (c1 ≤ r → r ≤ c2 → bandPassFactor c0 c1 c2 c3 r = 1) ∧
    (c2 < r → r ≤ c3 → bandPassFactor c0 c1 c2 c3 r = (c3 - r) / (c3 - c2)) ∧
    (c3 < r → bandPassFactor c0 c1 c2 c3 r = 0) ∧
    bandPassFactor c0 c1 c2 c3 c0 = 0 ∧
    bandPassFactor c0 c1 c2 c3 c1 = 1 ∧
    bandPassFactor c0 c1 c2 c3 c2 = 1 ∧
    bandPassFactor c0 c1 c2 c3 c3 = 0 := by
  unfold bandPassFactor
  refine ⟨?_, ?_, ?_, ?_, ?_, ?_, ?_, ?_, ?_⟩
  · intro h
    rw [if_pos h]
  · intro ha hb
    rw [if_neg (not_lt.mpr ha), if_pos ⟨ha, hb⟩, mul_one_div]
  · intro ha hb
    rw [if_neg (not_lt.mpr (by linarith)),
      if_neg (fun hc => absurd hc.2 (not_lt.mpr ha)), if_pos ⟨ha, hb⟩]
  · intro ha hb
    rw [if_neg (not_lt.mpr (by linarith)),
      if_neg (fun hc => absurd hc.2 (not_lt.mpr (by linarith))),
      if_neg (fun hc => absurd hc.2 (not_le.mpr ha)), if_pos ⟨ha, hb⟩, mul_one_div]
  · intro h
    rw [if_neg (not_lt.mpr (by linarith)),
      if_neg (fun hc => absurd hc.2 (not_lt.mpr (by linarith))),
      if_neg (fun hc => absurd hc.2 (not_le.mpr (by linarith))),
      if_neg (fun hc => absurd hc.2 (not_le.mpr h))]
  · rw [if_neg (lt_irrefl c0), if_pos ⟨le_refl c0, h01⟩]
    ring
  · rw [if_neg (not_lt.mpr (le_of_lt h01)),
      if_neg (fun hc => absurd hc.2 (lt_irrefl c1)),
      if_pos ⟨le_refl c1, le_of_lt h12⟩]
  · rw [if_neg (not_lt.mpr (by linarith)),
      if_neg (fun hc => absurd hc.2 (not_lt.mpr (le_of_lt h12))),
      if_pos ⟨le_of_lt h12, le_refl c2⟩]
  · rw [if_neg (not_lt.mpr (by linarith)),
      if_neg (fun hc => absurd hc.2 (not_lt.mpr (by linarith))),
      if_neg (fun hc => absurd hc.2 (not_le.mpr h23)),
      if_pos ⟨h23, le_refl c3⟩]
    ring

/-- Witness for C3: the default control points scaled to `[0, 1]` and the
radius `1/5` inside the pass-band. -/
theorem bandPassFactor_piecewise_witness :
    ((1 : ℚ) / 5 < 1 / 20 → bandPassFactor (1/20 : ℚ) (1/10) (1/2) (9/10) (1/5) = 0) ∧
    ((1 : ℚ) / 20 ≤ 1 / 5 → (1 : ℚ) / 5 < 1 / 10 →
      bandPassFactor (1/20 : ℚ) (1/10) (1/2) (9/10) (1/5) = (1/5 - 1/20) / (1/10 - 1/20)) ∧
    ((1 : ℚ) / 10 ≤ 1 / 5 → (1 : ℚ) / 5 ≤ 1 / 2 →
      bandPassFactor (1/20 : ℚ) (1/10) (1/2) (9/10) (1/5) = 1) ∧
    ((1 : ℚ) / 2 < 1 / 5 → (1 : ℚ) / 5 ≤ 9 / 10 →
      bandPassFactor (1/20 : ℚ) (1/10) (1/2) (9/10) (1/5) = (9/10 - 1/5) / (9/10 - 1/2)) ∧
    ((9 : ℚ) / 10 < 1 / 5 → bandPassFactor (1/20 : ℚ) (1/10) (1/2) (9/10) (1/5) = 0) ∧
    bandPassFactor (1/20 : ℚ) (1/10) (1/2) (9/10) (1/20) = 0 ∧
    bandPassFactor (1/20 : ℚ) (1/10) (1/2) (9/10) (1/10) = 1 ∧
    bandPassFactor (1/20 : ℚ) (1/10) (1/2) (9/10) (1/2) = 1 ∧
    bandPassFactor (1/20 : ℚ) (1/10) (1/2) (9/10) (9/10) = 0 :=
  bandPassFactor_piecewise (1/20) (1/10) (1/2) (9/10) (1/5)
    (by norm_num) (by norm_num) (by norm_num)

/-- CLAIM C4.  Whenever the cross-power magnitude is zero — in particular
whenever the fixed or the moving sample is `0 + 0i` — the kernel writes
exactly `(0, 0)`, regardless of the band-pass factor; the zero-magnitude
case is an ordinary branch, not an error. -/
theorem crossPowerSample_zero_magnitude (f m : ℝ × ℝ) (factor : ℝ) :
    (crossMagn f m = 0 → crossPowerSample f m factor = (0, 0)) ∧
    (f = (0, 0) → crossPowerSample f m factor = (0, 0)) ∧
    (m = (0, 0) → crossPowerSample f m factor = (0, 0)) := by
  have hz : crossMagn f m = 0 → crossPowerSample f m factor = (0, 0) := by
    intro h
    unfold crossPowerSample
    rw [if_neg (not_not_intro h)]
  refine ⟨hz, fun hf => hz ?_, fun hm => hz ?_⟩
  · subst hf
    simp [crossMagn, crossRe, crossIm]
  · subst hm
    simp [crossMagn, crossRe, crossIm]

/-- Writing a region is `foldl` over its coordinates. -/
theorem writeRegion_cons {ι α : Type} [DecidableEq ι] (f : ι → α) (c : ι)
    (cs : List ι) (buf : ι → Option α) :
    writeRegion f (c :: cs) buf =
      writeRegion f cs (Function.update buf c (some (f c))) := rfl

/-- A coordinate outside a region is untouched by that region's pass. -/
theorem writeRegion_not_mem {ι α : Type} [DecidableEq ι] (f : ι → α)
    (coords : List ι) (buf : ι → Option α) (i : ι) (h : i ∉ coords) :
    writeRegion f coords buf i = buf i := by
  induction coords generalizing buf with
  | nil => rfl
  | cons c cs ih =>
    rw [writeRegion_cons, ih _ (fun hm => h (List.mem_cons_of_mem c hm)),
      Function.update_noteq (fun hc => h (by rw [hc]; exact List.mem_cons_self c cs))]

/-- A coordinate inside a region holds the kernel's value afterwards. -/
theorem writeRegion_eq_of_mem {ι α : Type} [DecidableEq ι] (f : ι → α)
    (coords : List ι) (buf : ι → Option α) (i : ι) (h : i ∈ coords) :
    writeRegion f coords buf i = some (f i) := by
  induction coords generalizing buf with
  | nil => cases h
  | cons c cs ih =>
    rw [writeRegion_cons]
    by_cases hm : i ∈ cs
    · exact ih _ hm
    · have hic : i = c := by
        rcases List.mem_cons.mp h with h1 | h2
        · exact h1
        · exact absurd h2 hm
      subst hic
      rw [writeRegion_not_mem _ _ _ _ hm, Function.update_same]

/-- A coordinate already holding the kernel's value keeps it through any
further region pass. -/
theorem writeRegion_stable {ι α : Type} [DecidableEq ι] (f : ι → α)
    (coords : List ι) (buf : ι → Option α) (i : ι) (h : buf i = some (f i)) :
    writeRegion f coords buf i = some (f i) := by
  by_cases hm : i ∈ coords
  · exact writeRegion_eq_of_mem f coords buf i hm
  · rw [writeRegion_not_mem f coords buf i hm]
    exact h

/-- Evaluating a list of regions is `foldl` over the regions. -/
theorem evalParts_cons {ι α : Type} [DecidableEq ι] (f : ι → α) (r : List ι)
    (ps : List (List ι)) (buf : ι → Option α) :
    evalParts f (r :: ps) buf = evalParts f ps (writeRegion f r buf) := rfl

/-- A coordinate already holding the kernel's value keeps it through any
list of region passes. -/
theorem evalParts_stable {ι α : Type} [DecidableEq ι] (f : ι → α)
    (parts : List (List ι)) (buf : ι → Option α) (i : ι)
    (h : buf i = some (f i)) : evalParts f parts buf i = some (f i) := by
  induction parts generalizing buf with
  | nil => exact h
  | cons r ps ih =>
    rw [evalParts_cons]
    exact ih _ (writeRegion_stable f r buf i h)

/-- Every coordinate covered by some region of the partition ends holding
exactly the kernel's value for that coordinate. -/
theorem evalParts_eq_of_mem {ι α : Type} [DecidableEq ι] (f : ι → α)
    (parts : List (List ι)) (buf : ι → Option α) (i : ι)
    (h : i ∈ parts.flatten) : evalParts f parts buf i = some (f i) := by
  induction parts generalizing buf with
  | nil => cases h
  | cons r ps ih =>
    rw [evalParts_cons]
    rw [List.flatten_cons] at h
    rcases List.mem_append.mp h with hr | hps
    · exact evalParts_stable f ps _ i (writeRegion_eq_of_mem f r buf i hr)
    · exact ih _ hps

/-- CLAIM C8.  The per-coordinate output is a pure function of the samples
at that coordinate, the coordinate, the output geometry and the stored
band-pass tuple: evaluating the kernel over any two partitions of the
output region into sub-regions yields identical results at every covered
coordinate, independent of evaluation order or thread assignment. -/
theorem runPartition_order_independent {n : ℕ} (points : BandPassPoints)
    (size : Fin (n + 1) → ℕ) (start : Fin (n + 1) → ℤ)
    (fixedData movingData : (Fin (n + 1) → ℤ) → ℝ × ℝ)
    (parts1 parts2 : List (List (Fin (n + 1) → ℤ))) (idx : Fin (n + 1) → ℤ)
    (h1 : idx ∈ parts1.flatten) (h2 : idx ∈ parts2.flatten) :
    runPartition points size start fixedData movingData parts1 idx =
      runPartition points size start fixedData movingData parts2 idx ∧
    runPartition points size start fixedData movingData parts1 idx =
      some (kernelAt points size start fixedData movingData idx) := by
  have e1 := evalParts_eq_of_mem (kernelAt points size start fixedData movingData)
    parts1 (fun _ => none) idx h1
  have e2 := evalParts_eq_of_mem (kernelAt points size start fixedData movingData)
    parts2 (fun _ => none) idx h2
  unfold runPartition
  rw [e1, e2]
  exact ⟨rfl, rfl⟩

/-- Witness for C8: a 1-dimensional region of two coordinates, split as one
region or as two singleton regions in reverse order. -/
theorem runPartition_order_independent_witness :
    runPartition initialBandPassPoints ![4] ![0] (fun _ => (1, 0)) (fun _ => (1, 0))
        [[![0], ![1]]] ![0] =
      runPartition initialBandPassPoints ![4] ![0] (fun _ => (1, 0)) (fun _ => (1, 0))
        [[![1]], [![0]]] ![0] ∧
    runPartition initialBandPassPoints ![4] ![0] (fun _ => (1, 0)) (fun _ => (1, 0))
        [[![0], ![1]]] ![0] =
      some (kernelAt initialBandPassPoints ![4] ![0] (fun _ => (1, 0))
        (fun _ => (1, 0)) ![0]) :=
  runPartition_order_independent initialBandPassPoints ![4] ![0] (fun _ => (1, 0))
    (fun _ => (1, 0)) [[![0], ![1]]] [[![1]], [![0]]] ![0] (by decide) (by decide)

/-- CLAIM C9.  If either input spectrum is missing at evaluation time, the
evaluation fails before any region is evaluated and produces no output
element at all. -/
theorem updateOperator_missing_input {n : ℕ} (points : BandPassPoints)
    (fixed moving : Option (SpectrumImage (n + 1)))
    (h : fixed = none ∨ moving = none) :
    updateOperator points fixed moving = Except.error PipelineError.missingInput := by
  rcases h with h | h
  · subst h
    cases moving <;> rfl
  · subst h
    cases fixed <;> rfl

/-- Witness for C9: both inputs missing in the 1-dimensional instance. -/
theorem updateOperator_missing_input_witness :
    updateOperator initialBandPassPoints (none : Option (SpectrumImage 1)) none =
      Except.error PipelineError.missingInput :=
  updateOperator_missing_input initialBandPassPoints none none (Or.inl rfl)

/-- With ordered ramp end-points the band-pass factor is nonnegative. -/
theorem bandPassFactor_nonneg {α : Type} [LinearOrderedField α]
    (c0 c1 c2 c3 r : α) (h01 : c0 < c1) (h23 : c2 < c3) :
    0 ≤ bandPassFactor c0 c1 c2 c3 r := by
  unfold bandPassFactor
  split_ifs with h1 h2 h3 h4
  · exact le_refl 0
  · exact mul_nonneg (sub_nonneg.mpr h2.1)
      (le_of_lt (one_div_pos.mpr (sub_pos.mpr h01)))
  · exact zero_le_one
  · exact mul_nonneg (sub_nonneg.mpr h4.2)
      (le_of_lt (one_div_pos.mpr (sub_pos.mpr h23)))
  · exact le_refl 0

/-- With ordered ramp end-points the band-pass factor is at most one. -/
theorem bandPassFactor_le_one {α : Type} [LinearOrderedField α]
    (c0 c1 c2 c3 r : α) (h01 : c0 < c1) (h23 : c2 < c3) :
    bandPassFactor c0 c1 c2 c3 r ≤ 1 := by
  unfold bandPassFactor
  split_ifs with h1 h2 h3 h4
  · exact zero_le_one
  · rw [mul_one_div, div_le_one (sub_pos.mpr h01)]
    linarith [h2.2]
  · exact le_refl 1
  · rw [mul_one_div, div_le_one (sub_pos.mpr h23)]
    linarith [h4.1]
  · exact zero_le_one

/-- With nonzero magnitude the written sample's modulus is exactly the
(nonnegative) band-pass factor. -/
theorem complexAbs_crossPowerSample_of_ne (f m : ℝ × ℝ) (factor : ℝ)
    (hm : crossMagn f m ≠ 0) (hf : 0 ≤ factor) :
    complexAbs (crossPowerSample f m factor) = factor := by
  have hS : 0 ≤ crossRe f m * crossRe f m + crossIm f m * crossIm f m :=
    add_nonneg (mul_self_nonneg _) (mul_self_nonneg _)
  have hmm : crossMagn f m * crossMagn f m =
      crossRe f m * crossRe f m + crossIm f m * crossIm f m :=
    Real.mul_self_sqrt hS
  unfold crossPowerSample
  rw [if_pos hm]
  show Real.sqrt
      ((factor * crossRe f m / crossMagn f m) * (factor * crossRe f m / crossMagn f m) +
        (factor * crossIm f m / crossMagn f m) * (factor * crossIm f m / crossMagn f m)) =
      factor
  have hval : (factor * crossRe f m / crossMagn f m) * (factor * crossRe f m / crossMagn f m) +
      (factor * crossIm f m / crossMagn f m) * (factor * crossIm f m / crossMagn f m) =
      factor * factor := by
    field_simp
    linear_combination (- factor * factor) * hmm
  rw [hval]
  exact Real.sqrt_mul_self hf

/-- With zero magnitude the written sample is `(0, 0)` and its modulus is
zero. -/
theorem complexAbs_crossPowerSample_of_eq (f m : ℝ × ℝ) (factor : ℝ)
    (hm : crossMagn f m = 0) :
    complexAbs (crossPowerSample f m factor) = 0 := by
  unfold crossPowerSample
  rw [if_neg (not_not_intro hm)]
  show Real.sqrt ((0 : ℝ) * 0 + 0 * 0) = 0
  simp

/-- CLAIM C10.  For every sample the kernel writes: with nonzero cross-power
magnitude the modulus of the written value equals the band-pass factor
exactly, with zero magnitude it is zero, and — the stored control points
being valid and the image nonempty on axis 0 — it is always at most 1. -/
theorem kernelAt_modulus_eq_factor {n : ℕ} (points : BandPassPoints)
    (size : Fin (n + 1) → ℕ) (start : Fin (n + 1) → ℤ)
    (fixedData movingData : (Fin (n + 1) → ℤ) → ℝ × ℝ) (idx : Fin (n + 1) → ℤ)
    (hvalid : validTuple points) (hsz : 1 ≤ size 0) :
    (crossMagn (fixedData idx) (movingData idx) ≠ 0 →
      complexAbs (kernelAt points size start fixedData movingData idx) =
        bandPassFactor ((points.p0 : ℝ) * maxDist size) ((points.p1 : ℝ) * maxDist size)
          ((points.p2 : ℝ) * maxDist size) ((points.p3 : ℝ) * maxDist size)
          (distFrom0 size (fun d => idx d - start d))) ∧
    (crossMagn (fixedData idx) (movingData idx) = 0 →
      complexAbs (kernelAt points size start fixedData movingData idx) = 0) ∧
    complexAbs (kernelAt points size start fixedData movingData idx) ≤ 1 := by
  rcases hvalid with ⟨hq0, hq01, hq12, hq23, hq3⟩
  have hmdpos : 0 < maxDist size := by
    unfold maxDist
    apply Real.sqrt_pos.mpr
    have hsum : (0 : ℚ) ≤ ∑ d : Fin n, (size d.succ : ℚ) * (size d.succ : ℚ) / 4 :=
      Finset.sum_nonneg fun d _ =>
        div_nonneg (mul_nonneg (Nat.cast_nonneg _) (Nat.cast_nonneg _)) (by norm_num)
    have hsz1 : (1 : ℚ) ≤ (size 0 : ℚ) := by exact_mod_cast hsz
    have h1 : (1 : ℚ) ≤ maxDistSq size := by
      unfold maxDistSq
      nlinarith
    have h1R : (1 : ℝ) ≤ ((maxDistSq size : ℚ) : ℝ) := by exact_mod_cast h1
    linarith
  have h01R : (points.p0 : ℝ) * maxDist size < (points.p1 : ℝ) * maxDist size := by
    apply mul_lt_mul_of_pos_right _ hmdpos
    exact_mod_cast hq01
  have h23R : (points.p2 : ℝ) * maxDist size < (points.p3 : ℝ) * maxDist size := by
    apply mul_lt_mul_of_pos_right _ hmdpos
    exact_mod_cast hq23
  have hfac0 := bandPassFactor_nonneg ((points.p0 : ℝ) * maxDist size)
    ((points.p1 : ℝ) * maxDist size) ((points.p2 : ℝ) * maxDist size)
    ((points.p3 : ℝ) * maxDist size)
    (distFrom0 size (fun d => idx d - start d)) h01R h23R
  have hfac1 := bandPassFactor_le_one ((points.p0 : ℝ) * maxDist size)
    ((points.p1 : ℝ) * maxDist size) ((points.p2 : ℝ) * maxDist size)
    ((points.p3 : ℝ) * maxDist size)
    (distFrom0 size (fun d => idx d - start d)) h01R h23R
  unfold kernelAt
  refine ⟨?_, ?_, ?_⟩
  · intro hm
    exact complexAbs_crossPowerSample_of_ne _ _ _ hm hfac0
  · intro hm
    exact complexAbs_crossPowerSample_of_eq _ _ _ hm
  · by_cases hm : crossMagn (fixedData idx) (movingData idx) = 0
    · rw [complexAbs_crossPowerSample_of_eq _ _ _ hm]
      exact zero_le_one
    · rw [complexAbs_crossPowerSample_of_ne _ _ _ hm hfac0]
      exact hfac1

/-- Witness for C10: the default control points on a 1-dimensional image of
size 4, constant unit samples. -/
theorem kernelAt_modulus_eq_factor_witness :
    (crossMagn ((fun _ => ((1 : ℝ), (0 : ℝ))) ![0]) ((fun _ => ((1 : ℝ), (0 : ℝ))) ![0]) ≠ 0 →
      complexAbs (kernelAt initialBandPassPoints ![4] ![0]
          (fun _ => (1, 0)) (fun _ => (1, 0)) ![0]) =
        bandPassFactor ((initialBandPassPoints.p0 : ℝ) * maxDist ![4])
          ((initialBandPassPoints.p1 : ℝ) * maxDist ![4])
          ((initialBandPassPoints.p2 : ℝ) * maxDist ![4])
          ((initialBandPassPoints.p3 : ℝ) * maxDist ![4])
          (distFrom0 ![4] (fun d => ![0] d - ![0] d))) ∧
    (crossMagn ((fun _ => ((1 : ℝ), (0 : ℝ))) ![0]) ((fun _ => ((1 : ℝ), (0 : ℝ))) ![0]) = 0 →
      complexAbs (kernelAt initialBandPassPoints ![4] ![0]
          (fun _ => (1, 0)) (fun _ => (1, 0)) ![0]) = 0) ∧
    complexAbs (kernelAt initialBandPassPoints ![4] ![0]
      (fun _ => (1, 0)) (fun _ => (1, 0)) ![0]) ≤ 1 :=
  kernelAt_modulus_eq_factor initialBandPassPoints ![4] ![0]
    (fun _ => (1, 0)) (fun _ => (1, 0)) ![0]
    (by norm_num [validTuple, initialBandPassPoints]) (by decide)
